import Mathlib

/-!
Verification of the Poseidon2 tweakable-hash core (tweak encoding, permutation-mode
layer, tweakable-hash combinator) against its specification.

The development shallowly embeds the Rust sources:
- `src/tweak.rs` — tweak bit-packing and base-prime digit expansion;
- `src/poseidon2.rs` — padded permutation, compression mode, sponge mode, and the
  domain-separator derivation;
- `src/tweak_hash.rs` — the `PoseidonTweakHash` combinator and its `apply` dispatch.

Field elements of the BabyBear prime field are represented by their canonical
natural-number representatives in `[0, p)`; the underlying Poseidon2 permutation is
out of scope for the core and is passed in as a function parameter `perm`.
Panicking code paths (`assert!`) are modelled with `Option`, `none` standing for the
panic.
-/

/-- Prime modulus of the BabyBear field (`BabyBearParameters::PRIME = 0x78000001`). -/
def babyBearP : Nat := 2013265921

/-- Field addition on canonical BabyBear representatives. -/
def addF (a b : Nat) : Nat := (a + b) % babyBearP

/-- Separator byte for message hash tweaks (`TWEAK_SEPARATOR_FOR_MESSAGE_HASH`). -/
def TWEAK_SEPARATOR_FOR_MESSAGE_HASH : Nat := 0x02

/-- Separator byte for tree hash tweaks (`TWEAK_SEPARATOR_FOR_TREE_HASH`). -/
def TWEAK_SEPARATOR_FOR_TREE_HASH : Nat := 0x01

/-- Separator byte for chain hash tweaks (`TWEAK_SEPARATOR_FOR_CHAIN_HASH`). -/
def TWEAK_SEPARATOR_FOR_CHAIN_HASH : Nat := 0x00

/-- The digit-extraction loop shared by both `to_field_elements` implementations:
fill `n` result slots (pre-initialised to zero) with base-`babyBearP` digits of `t`,
least significant first, breaking out of the loop once `t` reaches zero so that the
remaining slots stay zero. Digits beyond the `n` available slots are dropped. -/
def tweakDigits : Nat → Nat → List Nat
  | 0, _ => []
  | n + 1, t =>
    if t = 0 then List.replicate (n + 1) 0
    else t % babyBearP :: tweakDigits n (t / babyBearP)

/-- Merkle-tree tweak (`TreeTweak`): `level : u8`, `position : u32`. -/
structure TreeTweak where
  level : Nat
  position : Nat

/-- Hash-chain tweak (`ChainTweak`): `epoch : u32`, `chain_index : u16`,
`position : u16`. -/
structure ChainTweak where
  epoch : Nat
  chain_index : Nat
  position : Nat

/-- Source `TreeTweak::to_field_elements::<TWEAK_LEN>` (src/tweak.rs): pack
`level` at bit 40, `position` at bit 8 and the tree separator at bit 0 into one
integer, then expand it into `n = TWEAK_LEN` base-`p` digits. -/
def TreeTweak.to_field_elements (t : TreeTweak) (n : Nat) : List Nat :=
  tweakDigits n (t.level <<< 40 ||| t.position <<< 8 ||| TWEAK_SEPARATOR_FOR_TREE_HASH)

/-- Source `ChainTweak::to_field_elements::<TWEAK_LEN>` (src/tweak.rs): pack
`epoch` at bit 40, `chain_index` at bit 24, `position` at bit 8 and the chain
separator at bit 0, then expand into `n = TWEAK_LEN` base-`p` digits. -/
def ChainTweak.to_field_elements (c : ChainTweak) (n : Nat) : List Nat :=
  tweakDigits n
    (c.epoch <<< 40 ||| c.chain_index <<< 24 ||| c.position <<< 8 |||
      TWEAK_SEPARATOR_FOR_CHAIN_HASH)

/-- The union tweak type `PoseidonTweak` (src/tweak.rs). -/
inductive PoseidonTweak where
  | tree : TreeTweak → PoseidonTweak
  | chain : ChainTweak → PoseidonTweak

/-- Source `PoseidonTweak::to_field_elements`: dispatch to the variant held. -/
def PoseidonTweak.to_field_elements (tw : PoseidonTweak) (n : Nat) : List Nat :=
  match tw with
  | .tree t => t.to_field_elements n
  | .chain c => c.to_field_elements n

/-- The packed integer of a tree tweak as the spec describes it: `level` at bit 40,
`position` at bit 8, separator `0x01` at bit 0. -/
def treeTweakPacked (t : TreeTweak) : Nat :=
  t.level <<< 40 ||| t.position <<< 8 ||| TWEAK_SEPARATOR_FOR_TREE_HASH

/-- The packed integer of a chain tweak as the spec describes it: `epoch` at bit 40,
`chain_index` at bit 24, `position` at bit 8, separator `0x00` at bit 0. -/
def chainTweakPacked (c : ChainTweak) : Nat :=
  c.epoch <<< 40 ||| c.chain_index <<< 24 ||| c.position <<< 8 |||
    TWEAK_SEPARATOR_FOR_CHAIN_HASH

/-- The packed integer of either tweak kind. -/
def PoseidonTweak.packed : PoseidonTweak → Nat
  | .tree t => treeTweakPacked t
  | .chain c => chainTweakPacked c

/-- Source `poseidon2_padded_permute` (src/poseidon2.rs): requires
`x.len() <= WIDTH` (`assert!`, modelled as `none`), zero-pads `x` on the right to
`WIDTH` elements and applies the permutation once. -/
def poseidon2_padded_permute (perm : List Nat → List Nat) (WIDTH : Nat)
    (x : List Nat) : Option (List Nat) :=
  if x.length ≤ WIDTH then some (perm (x ++ List.replicate (WIDTH - x.length) 0))
  else none

/-- Source `poseidon2_compress::<OUT_LEN>` (src/poseidon2.rs): requires
`x.len() >= OUT_LEN` (`assert!`, modelled as `none`), permutes the padded input and
returns the first `OUT_LEN` elements of the elementwise sum of the permuted state
and the original input. -/
def poseidon2_compress (perm : List Nat → List Nat) (WIDTH OUT_LEN : Nat)
    (x : List Nat) : Option (List Nat) :=
  if OUT_LEN ≤ x.length then
    (poseidon2_padded_permute perm WIDTH x).map fun permuted_x =>
      List.ofFn fun i : Fin OUT_LEN => addF (permuted_x.getD i 0) (x.getD i 0)
  else none

/-- The base-2³² folding of the `params` list in `poseidon_safe_domain_separator`;
the Rust `item as u32` cast truncates each entry to its low 32 bits, hence the
`item % 2 ^ 32`. -/
def domainFold (params : List Nat) : Nat :=
  params.foldl (fun acc item => acc * 2 ^ 32 + item % 2 ^ 32) 0

/-- The digit-expansion loop of `poseidon_safe_domain_separator`: all `n` slots are
computed (no early stop); the source divides via `(acc - acc % p) / p`. -/
def domainDigits : Nat → Nat → List Nat
  | 0, _ => []
  | n + 1, acc =>
    acc % babyBearP :: domainDigits n ((acc - acc % babyBearP) / babyBearP)

/-- Source `poseidon_safe_domain_separator::<OUT_LEN>` (src/poseidon2.rs): fold
`params` into one integer, expand it into `WIDTH` base-`p` digits and feed the
result through compression mode. -/
def poseidon_safe_domain_separator (perm : List Nat → List Nat)
    (WIDTH OUT_LEN : Nat) (params : List Nat) : Option (List Nat) :=
  poseidon2_compress perm WIDTH OUT_LEN (domainDigits WIDTH (domainFold params))

/-- Elementwise in-place addition `state.iter_mut().zip(chunk)` of the sponge
absorption: positions of `state` beyond `chunk.length` are left unchanged. -/
def addChunk (state chunk : List Nat) : List Nat :=
  List.zipWith addF state chunk ++ state.drop chunk.length

/-- Absorption phase of `poseidon2_sponge`: process `k` rate-sized chunks of
`input` (the source iterates `input_vector.chunks_exact(rate)`, which yields
exactly `input.length / rate` chunks). -/
def spongeAbsorb (perm : List Nat → List Nat) (rate : Nat) :
    Nat → List Nat → List Nat → List Nat
  | 0, state, _ => state
  | k + 1, state, input =>
    spongeAbsorb perm rate k (perm (addChunk state (input.take rate)))
      (input.drop rate)

/-- Squeeze phase of `poseidon2_sponge`: while the output buffer holds fewer than
`OUT_LEN` elements, append `state[..rate]` and permute. `fuel` bounds the
iteration count; `OUT_LEN` iterations always suffice since the type-level
constraint `WIDTH > CAPACITY` makes `rate ≥ 1`. -/
def spongeSqueeze (perm : List Nat → List Nat) (rate OUT_LEN : Nat) :
    Nat → List Nat → List Nat → List Nat
  | 0, _, out => out
  | fuel + 1, state, out =>
    if OUT_LEN ≤ out.length then out
    else spongeSqueeze perm rate OUT_LEN fuel (perm state) (out ++ state.take rate)

/-- Source `poseidon2_sponge::<OUT_LEN, CAPACITY>` (src/poseidon2.rs). The trait
bound `I: Permutation<[BabyBear; I::WIDTH - CAPACITY]>` forces the permutation
state array to have `rate = WIDTH - CAPACITY` elements, so the state is
initialised as `core::array::from_fn(|i| capacity_value.get(i)...)` over `rate`
slots and the whole state is both absorbed into and extracted from. -/
def poseidon2_sponge (perm : List Nat → List Nat) (WIDTH CAPACITY OUT_LEN : Nat)
    (capacity_value x : List Nat) : List Nat :=
  let rate := WIDTH - CAPACITY
  let extra_elements := (rate - x.length % rate) % rate
  let input_vector := x ++ List.replicate extra_elements 0
  let state := List.ofFn fun i : Fin rate => capacity_value.getD i 0
  let state := spongeAbsorb perm rate (input_vector.length / rate) state input_vector
  (spongeSqueeze perm rate OUT_LEN OUT_LEN state []).take OUT_LEN

/-- Modelled from the spec (§4.5, claim C2): the sponge as the specification
describes it. The permutation state has `WIDTH` elements, the capacity value
occupying its first `CAPACITY` positions and zero elsewhere; the input is padded
on the right with zeros to a multiple of `RATE = WIDTH - CAPACITY`; each
`RATE`-sized chunk is added elementwise into the first `RATE` positions of the
state with a permutation after each chunk; the squeeze repeatedly appends the
first `RATE` state elements (permuting between extractions) until at least
`OUT_LEN` are collected, then truncates to exactly `OUT_LEN`. -/
def poseidon2_sponge_spec (perm : List Nat → List Nat)
    (WIDTH CAPACITY OUT_LEN : Nat) (capacity_value x : List Nat) : List Nat :=
  let rate := WIDTH - CAPACITY
  let padded := x ++ List.replicate ((rate - x.length % rate) % rate) 0
  let state := capacity_value ++ List.replicate (WIDTH - CAPACITY) 0
  let state := spongeAbsorb perm rate (padded.length / rate) state padded
  (spongeSqueeze perm rate OUT_LEN OUT_LEN state []).take OUT_LEN

/-- Number of scheme configuration integers fed to the domain separator
(`DOMAIN_PARAMETERS_LENGTH`). -/
def DOMAIN_PARAMETERS_LENGTH : Nat := 4

/-- The `PoseidonTweakHash` combinator instance (src/tweak_hash.rs): the const
generic parameters of the Rust struct, the public parameter, the tweak, and the
message blocks. -/
structure PoseidonTweakHash where
  LOG_LIFETIME : Nat
  CEIL_LOG_NUM_CHAINS : Nat
  CHUNK_SIZE : Nat
  PARAMETER_LEN : Nat
  HASH_LEN : Nat
  TWEAK_LEN : Nat
  CAPACITY : Nat
  NUM_CHUNKS : Nat
  parameter : List Nat
  tweak : PoseidonTweak
  message : List (List Nat)

/-- Source `PoseidonTweakHash::apply` (src/tweak_hash.rs): dispatch on
`self.message.len()`. One block compresses `parameter ∥ tweak ∥ message[0]` with
the width-16 instance; two blocks compress
`parameter ∥ tweak ∥ message[0] ∥ message[1]` with the width-24 instance; every
other arity returns the all-zero placeholder of length `HASH_LEN` (the sponge
call is commented out in the source). `perm16` and `perm24` stand for the
permutations of `poseidon2_instance_short()` and `poseidon2_instance()`. -/
def PoseidonTweakHash.apply (perm16 perm24 : List Nat → List Nat)
    (th : PoseidonTweakHash) : Option (List Nat) :=
  match th.message.length with
  | 1 =>
    poseidon2_compress perm16 16 th.HASH_LEN
      (th.parameter ++ th.tweak.to_field_elements th.TWEAK_LEN ++
        th.message.getD 0 [])
  | 2 =>
    poseidon2_compress perm24 24 th.HASH_LEN
      (th.parameter ++ th.tweak.to_field_elements th.TWEAK_LEN ++
        th.message.getD 0 [] ++ th.message.getD 1 [])
  | _ => some (List.replicate th.HASH_LEN 0)

/-! Auxiliary lemmas: the digit loops compute the closed-form base-`p` expansion,
and the packed tweak integers decompose arithmetically. -/

theorem tweakDigits_eq_ofFn (n : Nat) : ∀ t : Nat,
    tweakDigits n t =
      List.ofFn fun i : Fin n => t / babyBearP ^ (i : Nat) % babyBearP := by
  induction n with
  | zero => intro t; simp [tweakDigits]
  | succ n ih =>
    intro t
    by_cases ht : t = 0
    · subst ht
      simp [tweakDigits, Nat.zero_div, Nat.zero_mod, List.ofFn_const,
        List.replicate_succ]
    · rw [tweakDigits, if_neg ht, List.ofFn_succ]
      congr 1
      · simp
      · rw [ih (t / babyBearP)]
        congr 1
        funext i
        rw [Nat.div_div_eq_div_mul]
        congr 2
        rw [Fin.val_succ, pow_succ, Nat.mul_comm]

theorem domainDigits_eq_ofFn (n : Nat) : ∀ t : Nat,
    domainDigits n t =
      List.ofFn fun i : Fin n => t / babyBearP ^ (i : Nat) % babyBearP := by
  induction n with
  | zero => intro t; simp [domainDigits]
  | succ n ih =>
    intro t
    have hsub : t - t % babyBearP = babyBearP * (t / babyBearP) := by
      have h := Nat.div_add_mod t babyBearP
      omega
    rw [domainDigits, hsub,
      Nat.mul_div_cancel_left _ (show 0 < babyBearP by decide), List.ofFn_succ]
    congr 1
    · simp
    · rw [ih (t / babyBearP)]
      congr 1
      funext i
      rw [Nat.div_div_eq_div_mul]
      congr 2
      rw [Fin.val_succ, pow_succ, Nat.mul_comm]

theorem treeTweakPacked_eq (t : TreeTweak) (_hl : t.level < 2 ^ 8)
    (hp : t.position < 2 ^ 32) :
    treeTweakPacked t = 2 ^ 8 * (2 ^ 32 * t.level + t.position) + 1 := by
  unfold treeTweakPacked TWEAK_SEPARATOR_FOR_TREE_HASH
  simp only [Nat.shiftLeft_eq]
  have h1 : t.position * 2 ^ 8 < 2 ^ 40 := by
    have := Nat.mul_lt_mul_of_pos_right hp (show (0:Nat) < 2 ^ 8 by norm_num)
    calc t.position * 2 ^ 8 < 2 ^ 32 * 2 ^ 8 := this
      _ = 2 ^ 40 := by norm_num
  rw [Nat.mul_comm t.level, ← Nat.mul_add_lt_is_or h1 t.level]
  have e2 : 2 ^ 40 * t.level + t.position * 2 ^ 8 =
      2 ^ 8 * (2 ^ 32 * t.level + t.position) := by ring
  rw [e2, ← Nat.mul_add_lt_is_or (show (1:Nat) < 2 ^ 8 by norm_num)]

theorem chainTweakPacked_eq (c : ChainTweak) (_he : c.epoch < 2 ^ 32)
    (hci : c.chain_index < 2 ^ 16) (hcp : c.position < 2 ^ 16) :
    chainTweakPacked c =
      2 ^ 8 * (2 ^ 32 * c.epoch + 2 ^ 16 * c.chain_index + c.position) := by
  unfold chainTweakPacked TWEAK_SEPARATOR_FOR_CHAIN_HASH
  simp only [Nat.shiftLeft_eq, Nat.or_zero]
  have h1 : c.chain_index * 2 ^ 24 < 2 ^ 40 := by
    have := Nat.mul_lt_mul_of_pos_right hci (show (0:Nat) < 2 ^ 24 by norm_num)
    calc c.chain_index * 2 ^ 24 < 2 ^ 16 * 2 ^ 24 := this
      _ = 2 ^ 40 := by norm_num
  rw [Nat.mul_comm c.epoch, ← Nat.mul_add_lt_is_or h1 c.epoch]
  have e2 : 2 ^ 40 * c.epoch + c.chain_index * 2 ^ 24 =
      2 ^ 24 * (2 ^ 16 * c.epoch + c.chain_index) := by ring
  have h2 : c.position * 2 ^ 8 < 2 ^ 24 := by
    have := Nat.mul_lt_mul_of_pos_right hcp (show (0:Nat) < 2 ^ 8 by norm_num)
    calc c.position * 2 ^ 8 < 2 ^ 16 * 2 ^ 8 := this
      _ = 2 ^ 24 := by norm_num
  rw [e2, ← Nat.mul_add_lt_is_or h2]
  ring

theorem domainFold_of_small (params : List Nat)
    (h : ∀ i ∈ params, i < 2 ^ 32) :
    domainFold params = params.foldl (fun acc item => acc * 2 ^ 32 + item) 0 := by
  unfold domainFold
  suffices hgen : ∀ acc : Nat,
      params.foldl (fun acc item => acc * 2 ^ 32 + item % 2 ^ 32) acc =
        params.foldl (fun acc item => acc * 2 ^ 32 + item) acc from hgen 0
  induction params with
  | nil => intro acc; rfl
  | cons a l ih =>
    intro acc
    have ha : a % 2 ^ 32 = a := Nat.mod_eq_of_lt (h a (by simp))
    simp only [List.foldl_cons, ha]
    exact ih (fun i hi => h i (by simp [hi])) _

theorem domainFold_map_mod (params : List Nat) :
    domainFold params = domainFold (params.map (· % 2 ^ 32)) := by
  unfold domainFold
  rw [List.foldl_map]
  congr 1
  funext acc item
  rw [Nat.mod_mod_of_dvd _ dvd_rfl]

theorem poseidon2_compress_length {perm : List Nat → List Nat}
    {WIDTH OUT_LEN : Nat} {x r : List Nat}
    (h : poseidon2_compress perm WIDTH OUT_LEN x = some r) : r.length = OUT_LEN := by
  unfold poseidon2_compress poseidon2_padded_permute at h
  by_cases h1 : OUT_LEN ≤ x.length
  · rw [if_pos h1] at h
    by_cases h2 : x.length ≤ WIDTH
    · rw [if_pos h2] at h
      simp only [Option.map_some', Option.some.injEq] at h
      rw [← h]
      exact List.length_ofFn _
    · rw [if_neg h2] at h
      simp at h
  · rw [if_neg h1] at h
    simp at h

/-! Claim theorems. -/

/-- C1: for every `PoseidonTweakHash` instance whose message list holds more than
2 blocks, `apply()` returns the all-zero vector of length `HASH_LEN` (the
reference placeholder), not a sponge computation. -/
theorem apply_many_blocks_zero_placeholder (perm16 perm24 : List Nat → List Nat)
    (th : PoseidonTweakHash) (hm : 2 < th.message.length) :
    th.apply perm16 perm24 = some (List.replicate th.HASH_LEN 0) := by
  unfold PoseidonTweakHash.apply
  split
  · omega
  · omega
  · rfl

/-- Witness for C1 at a concrete three-block instance. -/
theorem apply_many_blocks_zero_placeholder_witness :
    2 < (PoseidonTweakHash.mk 0 0 0 1 2 2 0 0 [3] (.tree ⟨1, 2⟩)
          [[1, 2], [3, 4], [5, 6]]).message.length ∧
    (PoseidonTweakHash.mk 0 0 0 1 2 2 0 0 [3] (.tree ⟨1, 2⟩)
          [[1, 2], [3, 4], [5, 6]]).apply id id = some (List.replicate 2 0) :=
  ⟨by decide, apply_many_blocks_zero_placeholder id id _ (by decide)⟩

/-- C2 (code bug): the sponge state of `poseidon2_sponge` has
`RATE = WIDTH - CAPACITY` elements, forced by the trait bound
`I: Permutation<[BabyBear; I::WIDTH - CAPACITY]>`, not `WIDTH` elements as the
spec describes; the two computations disagree on a concrete input. The
permutation is instantiated with a rotation so that both are evaluable. -/
theorem sponge_state_has_rate_elements_not_width :
    poseidon2_sponge (fun l => l.rotate 1) 16 9 7 [1, 2, 3, 4, 5, 6, 7, 8, 9]
        [1, 2, 3] = [4, 6, 4, 5, 6, 7, 2] ∧
    poseidon2_sponge_spec (fun l => l.rotate 1) 16 9 7 [1, 2, 3, 4, 5, 6, 7, 8, 9]
        [1, 2, 3] = [4, 6, 4, 5, 6, 7, 8] ∧
    poseidon2_sponge (fun l => l.rotate 1) 16 9 7 [1, 2, 3, 4, 5, 6, 7, 8, 9]
        [1, 2, 3] ≠
      poseidon2_sponge_spec (fun l => l.rotate 1) 16 9 7
        [1, 2, 3, 4, 5, 6, 7, 8, 9] [1, 2, 3] :=
  ⟨by decide, by decide, by decide⟩

/-- C3: with `OUT_LEN ≤ len(x) ≤ WIDTH`, compression succeeds and returns the
`OUT_LEN`-length vector whose `i`-th element is
`permute(zero-pad(x))[i] + x[i]` (feed-forward law), `x[i]` taken from the
original unpadded input. -/
theorem compress_feed_forward (perm : List Nat → List Nat) (WIDTH OUT_LEN : Nat)
    (x : List Nat) (h1 : OUT_LEN ≤ x.length) (h2 : x.length ≤ WIDTH) :
    ∃ r, poseidon2_compress perm WIDTH OUT_LEN x = some r ∧ r.length = OUT_LEN ∧
      ∀ i < OUT_LEN,
        r.getD i 0 =
          addF ((perm (x ++ List.replicate (WIDTH - x.length) 0)).getD i 0)
            (x.getD i 0) := by
  refine ⟨List.ofFn fun i : Fin OUT_LEN =>
      addF ((perm (x ++ List.replicate (WIDTH - x.length) 0)).getD i 0)
        (x.getD i 0), ?_, List.length_ofFn _, ?_⟩
  · unfold poseidon2_compress poseidon2_padded_permute
    rw [if_pos h1, if_pos h2]
    rfl
  · intro i hi
    rw [List.getD_eq_getElem?_getD, List.getElem?_ofFn]
    simp [List.ofFnNthVal, hi]

/-- Witness for C3 at `x = [5]`, `WIDTH = 2`, `OUT_LEN = 1`, identity
permutation. -/
theorem compress_feed_forward_witness :
    (1 ≤ ([5] : List Nat).length ∧ ([5] : List Nat).length ≤ 2) ∧
    ∃ r, poseidon2_compress id 2 1 [5] = some r ∧ r.length = 1 ∧
      ∀ i < 1,
        r.getD i 0 =
          addF ((id ([5] ++ List.replicate (2 - ([5] : List Nat).length) 0)).getD i 0)
            (([5] : List Nat).getD i 0) :=
  ⟨⟨by decide, by decide⟩, compress_feed_forward id 2 1 [5] (by decide) (by decide)⟩

/-- C4: `apply()` dispatches purely on arity — one block compresses
`parameter ∥ encode(tweak) ∥ message[0]` at width 16, two blocks compress
`parameter ∥ encode(tweak) ∥ message[0] ∥ message[1]` at width 24, and every
produced output has length exactly `HASH_LEN`. -/
theorem apply_arity_dispatch (perm16 perm24 : List Nat → List Nat)
    (th : PoseidonTweakHash) :
    (∀ m, th.message = [m] →
        th.apply perm16 perm24 =
          poseidon2_compress perm16 16 th.HASH_LEN
            (th.parameter ++ th.tweak.to_field_elements th.TWEAK_LEN ++ m)) ∧
    (∀ m1 m2, th.message = [m1, m2] →
        th.apply perm16 perm24 =
          poseidon2_compress perm24 24 th.HASH_LEN
            (th.parameter ++ th.tweak.to_field_elements th.TWEAK_LEN ++
              m1 ++ m2)) ∧
    (∀ r, th.apply perm16 perm24 = some r → r.length = th.HASH_LEN) := by
  refine ⟨?_, ?_, ?_⟩
  · intro m hm
    unfold PoseidonTweakHash.apply
    rw [hm]
    rfl
  · intro m1 m2 hm
    unfold PoseidonTweakHash.apply
    rw [hm]
    rfl
  · intro r hr
    unfold PoseidonTweakHash.apply at hr
    split at hr
    · exact poseidon2_compress_length hr
    · exact poseidon2_compress_length hr
    · simp only [Option.some.injEq] at hr
      rw [← hr]
      exact List.length_replicate _ _

/-- Witness for C4 at concrete one-block and two-block instances. -/
theorem apply_arity_dispatch_witness :
    (PoseidonTweakHash.mk 0 0 0 1 2 2 0 0 [3] (.tree ⟨1, 2⟩)
          [[7, 8]]).apply id id =
      poseidon2_compress id 16 2
        ([3] ++ (PoseidonTweak.tree ⟨1, 2⟩).to_field_elements 2 ++ [7, 8]) ∧
    (PoseidonTweakHash.mk 0 0 0 1 2 2 0 0 [3] (.tree ⟨1, 2⟩)
          [[7, 8], [9, 10]]).apply id id =
      poseidon2_compress id 24 2
        ([3] ++ (PoseidonTweak.tree ⟨1, 2⟩).to_field_elements 2 ++
          [7, 8] ++ [9, 10]) ∧
    ([6, 536870846] : List Nat).length = 2 :=
  ⟨(apply_arity_dispatch id id _).1 [7, 8] rfl,
    (apply_arity_dispatch id id _).2.1 [7, 8] [9, 10] rfl,
    (apply_arity_dispatch id id
        (PoseidonTweakHash.mk 0 0 0 1 2 2 0 0 [3] (.tree ⟨1, 2⟩) [[7, 8]])).2.2
      [6, 536870846] (by decide)⟩

/-- C5: `to_field_elements` always returns exactly `TWEAK_LEN` field elements,
the least-significant-first base-`p` digit expansion of the packed integer
(early stop leaves zeros; digits beyond `TWEAK_LEN` are dropped); in particular
the concrete vectors of the reference tests hold. -/
theorem tweak_to_field_elements_expansion (n : Nat) (tw : PoseidonTweak) :
    (tw.to_field_elements n).length = n ∧
    tw.to_field_elements n =
      List.ofFn (fun i : Fin n => tw.packed / babyBearP ^ (i : Nat) % babyBearP) ∧
    (PoseidonTweak.tree ⟨1, 2⟩).to_field_elements 2 = [268435423, 546] ∧
    (PoseidonTweak.chain ⟨1, 2, 3⟩).to_field_elements 2 = [301990110, 546] := by
  have hmain : tw.to_field_elements n =
      List.ofFn (fun i : Fin n => tw.packed / babyBearP ^ (i : Nat) % babyBearP) := by
    cases tw with
    | tree t => exact tweakDigits_eq_ofFn n _
    | chain c => exact tweakDigits_eq_ofFn n _
  refine ⟨?_, hmain, by decide, by decide⟩
  rw [hmain]
  exact List.length_ofFn _

/-- C6: a tree tweak and a chain tweak carrying the same numeric pattern (equal
packed bits above the one-byte separator) never have equal `TWEAK_LEN`-element
encodings, because the separators 0x01 and 0x00 occupy the low byte. -/
theorem tree_chain_encodings_never_collide (n : Nat) (t : TreeTweak)
    (c : ChainTweak) (hn : 0 < n) (hl : t.level < 2 ^ 8)
    (hp : t.position < 2 ^ 32) (he : c.epoch < 2 ^ 32)
    (hci : c.chain_index < 2 ^ 16) (hcp : c.position < 2 ^ 16)
    (hpat : treeTweakPacked t / 2 ^ 8 = chainTweakPacked c / 2 ^ 8) :
    (PoseidonTweak.tree t).to_field_elements n ≠
      (PoseidonTweak.chain c).to_field_elements n := by
  intro hEq
  have htp := treeTweakPacked_eq t hl hp
  have hcp' := chainTweakPacked_eq c he hci hcp
  have hdiv1 : treeTweakPacked t / 2 ^ 8 = 2 ^ 32 * t.level + t.position := by
    rw [htp, Nat.mul_add_div (by norm_num)]
    norm_num
  have hdiv2 : chainTweakPacked c / 2 ^ 8 =
      2 ^ 32 * c.epoch + 2 ^ 16 * c.chain_index + c.position := by
    rw [hcp']
    exact Nat.mul_div_cancel_left _ (by norm_num)
  have hAB : 2 ^ 32 * t.level + t.position =
      2 ^ 32 * c.epoch + 2 ^ 16 * c.chain_index + c.position := by
    rw [← hdiv1, ← hdiv2, hpat]
  have hsucc : treeTweakPacked t = chainTweakPacked c + 1 := by
    rw [htp, hcp', hAB]
  have e1 : (PoseidonTweak.tree t).to_field_elements n =
      tweakDigits n (treeTweakPacked t) := rfl
  have e2 : (PoseidonTweak.chain c).to_field_elements n =
      tweakDigits n (chainTweakPacked c) := rfl
  rw [e1, e2, tweakDigits_eq_ofFn, tweakDigits_eq_ofFn] at hEq
  have hfun := List.ofFn_inj.mp hEq
  have h0 := congrFun hfun ⟨0, hn⟩
  simp only [pow_zero, Nat.div_one] at h0
  rw [hsucc] at h0
  simp only [babyBearP] at h0
  omega

/-- Witness for C6: tree tweak `(1, 2)` against the chain tweak `(1, 0, 2)`
carrying the same packed bits above the separator byte, at `TWEAK_LEN = 2`. -/
theorem tree_chain_encodings_never_collide_witness :
    (0 < 2 ∧
      treeTweakPacked ⟨1, 2⟩ / 2 ^ 8 = chainTweakPacked ⟨1, 0, 2⟩ / 2 ^ 8) ∧
    (PoseidonTweak.tree ⟨1, 2⟩).to_field_elements 2 ≠
      (PoseidonTweak.chain ⟨1, 0, 2⟩).to_field_elements 2 :=
  ⟨⟨by decide, by decide⟩,
    tree_chain_encodings_never_collide 2 ⟨1, 2⟩ ⟨1, 0, 2⟩ (by decide) (by decide)
      (by decide) (by decide) (by decide) (by decide) (by decide)⟩

/-- C7: the domain separator equals the compression of the `WIDTH`-element
base-`p` digit expansion of the base-2³² positional folding of `params`
(entries within `u32` range). -/
theorem domain_separator_derivation (perm : List Nat → List Nat)
    (WIDTH OUT_LEN : Nat) (params : List Nat)
    (hparams : ∀ i ∈ params, i < 2 ^ 32) :
    poseidon_safe_domain_separator perm WIDTH OUT_LEN params =
      poseidon2_compress perm WIDTH OUT_LEN
        (List.ofFn fun i : Fin WIDTH =>
          params.foldl (fun acc item => acc * 2 ^ 32 + item) 0 /
              babyBearP ^ (i : Nat) % babyBearP) := by
  unfold poseidon_safe_domain_separator
  rw [domainDigits_eq_ofFn, domainFold_of_small params hparams]

/-- Witness for C7 at `params = [5, 6]`, `WIDTH = 2`, `OUT_LEN = 1`, identity
permutation. -/
theorem domain_separator_derivation_witness :
    (∀ i ∈ [5, 6], i < 2 ^ 32) ∧
    poseidon_safe_domain_separator id 2 1 [5, 6] =
      poseidon2_compress id 2 1
        (List.ofFn fun i : Fin 2 =>
          [5, 6].foldl (fun acc item => acc * 2 ^ 32 + item) 0 /
              babyBearP ^ (i : Nat) % babyBearP) :=
  ⟨by decide, domain_separator_derivation id 2 1 [5, 6] (by decide)⟩

/-- C8: `poseidon2_padded_permute` fails (modelled `none`) whenever
`len(x) > WIDTH`, and `poseidon2_compress` fails whenever `len(x) < OUT_LEN`. -/
theorem padded_permute_and_compress_fail_fast (perm : List Nat → List Nat)
    (WIDTH OUT_LEN : Nat) (x y : List Nat)
    (hx : WIDTH < x.length) (hy : y.length < OUT_LEN) :
    poseidon2_padded_permute perm WIDTH x = none ∧
    poseidon2_compress perm WIDTH OUT_LEN y = none := by
  constructor
  · unfold poseidon2_padded_permute
    rw [if_neg (by omega)]
  · unfold poseidon2_compress
    rw [if_neg (by omega)]

/-- Witness for C8 at `WIDTH = 1`, `OUT_LEN = 2`, `x = [1, 2]`, `y = [3]`. -/
theorem padded_permute_and_compress_fail_fast_witness :
    (1 < ([1, 2] : List Nat).length ∧ ([3] : List Nat).length < 2) ∧
    poseidon2_padded_permute id 1 [1, 2] = none ∧
    poseidon2_compress id 1 2 [3] = none :=
  ⟨⟨by decide, by decide⟩,
    padded_permute_and_compress_fail_fast id 1 2 [1, 2] [3] (by decide)
      (by decide)⟩

/-- C9: with zero message blocks, `apply()` takes the fallback branch and
returns the all-zero vector of length `HASH_LEN` instead of failing. -/
theorem apply_zero_blocks_zero_placeholder (perm16 perm24 : List Nat → List Nat)
    (th : PoseidonTweakHash) (hm : th.message = []) :
    th.apply perm16 perm24 = some (List.replicate th.HASH_LEN 0) := by
  unfold PoseidonTweakHash.apply
  rw [hm]
  rfl

/-- Witness for C9 at a concrete zero-block instance. -/
theorem apply_zero_blocks_zero_placeholder_witness :
    (PoseidonTweakHash.mk 0 0 0 1 2 2 0 0 [3] (.tree ⟨1, 2⟩) []).message =
      ([] : List (List Nat)) ∧
    (PoseidonTweakHash.mk 0 0 0 1 2 2 0 0 [3] (.tree ⟨1, 2⟩) []).apply id id =
      some (List.replicate 2 0) :=
  ⟨rfl, apply_zero_blocks_zero_placeholder id id _ rfl⟩

/-- C10: each `params` entry is truncated to its low 32 bits before folding:
entries below 2³² fold to the exact positional base-2³² value, and the derived
separator only depends on the entries modulo 2³². -/
theorem domain_separator_truncates_params (perm : List Nat → List Nat)
    (WIDTH OUT_LEN : Nat) (params : List Nat) :
    ((∀ i ∈ params, i < 2 ^ 32) →
        domainFold params =
          params.foldl (fun acc item => acc * 2 ^ 32 + item) 0) ∧
    domainFold params = domainFold (params.map (· % 2 ^ 32)) ∧
    poseidon_safe_domain_separator perm WIDTH OUT_LEN params =
      poseidon_safe_domain_separator perm WIDTH OUT_LEN
        (params.map (· % 2 ^ 32)) := by
  refine ⟨fun h => domainFold_of_small params h, domainFold_map_mod params, ?_⟩
  unfold poseidon_safe_domain_separator
  rw [← domainFold_map_mod params]

/-- Witness for C10 at `params = [7]` and `params = [2 ^ 32 + 5]`. -/
theorem domain_separator_truncates_params_witness :
    domainFold [7] = [7].foldl (fun acc item => acc * 2 ^ 32 + item) 0 ∧
    domainFold [2 ^ 32 + 5] = domainFold ([2 ^ 32 + 5].map (· % 2 ^ 32)) ∧
    poseidon_safe_domain_separator id 2 1 [2 ^ 32 + 5] =
      poseidon_safe_domain_separator id 2 1 ([2 ^ 32 + 5].map (· % 2 ^ 32)) :=
  ⟨(domain_separator_truncates_params id 2 1 [7]).1 (by decide),
    (domain_separator_truncates_params id 2 1 [2 ^ 32 + 5]).2.1,
    (domain_separator_truncates_params id 2 1 [2 ^ 32 + 5]).2.2⟩
